import Mathlib

/- Verification of the MatrixArray core of pyPRISM (typyPRISM/MatrixArray.py)
and the NoIntra intra-molecular correlation function (typyPRISM/omega/NoIntra.py).

Two embeddings are developed:

* a value-level embedding, in which the numpy buffer of a `MatrixArray` is a
  total function `Nat → Nat → Nat → ℚ` (the buffer of shape
  `(length, rank, rank)` occupies the indices `m < length`, `i < rank`,
  `j < rank`; entries outside those bounds are irrelevant junk carried along
  so that the functions stay total).  Methods that can raise the space
  assertion return `Except String _`; in-place methods additionally return the
  final state of `self` (even when the assertion fires) as the second
  component of a pair, mirroring the order of the assert and the mutation in
  the Python source.

* a store-level embedding (further below), in which buffers live in a `Store`
  and a `MARef` holds an index into it.  It is used for the claims about
  buffer identity: fresh allocation of results, independence of buffers, and
  in-place operators returning the very same instance. -/

/-- The `typyPRISM.Space` enumeration: a two-valued tag, `Real` vs the
Fourier-transformed space, compared only for equality. -/
inductive Space where
  | Real : Space
  | Fourier : Space
deriving DecidableEq, Repr

/-- A numpy buffer of shape `(length, rank, rank)`, as a total function
`m ↦ i ↦ j ↦ value`. -/
abbrev Buf : Type := Nat → Nat → Nat → ℚ

/-- The `MatrixArray` container: `rank`×`rank` matrices, `length` of them,
a data buffer, and a space tag (`__slots__ = ('rank','length','data','space')`). -/
structure MatrixArray where
  length : Nat
  rank : Nat
  data : Buf
  space : Space

/-- `MatrixArray.SpaceError`: the message of the space assertion. -/
def MatrixArray.SpaceError : String :=
  "Attempting MatrixArray math in non-matching spaces"

/-- The constructor `MatrixArray(length, rank, data=None, space=None)`:
`data` defaults to `np.zeros((length,rank,rank))` and `space` defaults to
`Space.Real` when omitted. -/
def MatrixArray.mk0 (length rank : Nat) (data : Option Buf) (space : Option Space) :
    MatrixArray :=
  { length := length
    rank := rank
    data := data.getD (fun _ _ _ => 0)
    space := space.getD Space.Real }

/-- Assignment `buf[:, t1, t2] = val` of one column of a buffer. -/
def updCol (d : Buf) (t1 t2 : Nat) (val : Nat → ℚ) : Buf :=
  fun m i j => if i = t1 ∧ j = t2 then val m else d m i j

/-- `MatrixArray.__setitem__(self, (type1,type2), val)`: writes the column
`data[:,type1,type2] = val` and, when `type1 != type2`, also
`data[:,type2,type1] = val` (the second write happens after the first). -/
def MatrixArray.setItem (a : MatrixArray) (type1 type2 : Nat) (val : Nat → ℚ) :
    MatrixArray :=
  if type1 = type2 then
    { a with data := updCol a.data type1 type2 val }
  else
    { a with data := updCol (updCol a.data type1 type2 val) type2 type1 val }

/-- `MatrixArray.__getitem__(self, (type1,type2))`: the column
`data[:,type1,type2]`. -/
def MatrixArray.getItem (a : MatrixArray) (type1 type2 : Nat) : Nat → ℚ :=
  fun m => a.data m type1 type2

/-- `itertools.product(range(r), range(r))`: row-major enumeration of index
pairs. -/
def prodRM (r : Nat) : List (Nat × Nat) :=
  (List.range r).flatMap fun i => (List.range r).map fun j => (i, j)

/-- `MatrixArray.itercolumn(self)`: for `(i,j)` in row-major order, keep the
pairs with `i <= j` (upper-triangle condition) and yield `((i,j), data[:,i,j])`.
The Python generator is finite and a fresh call restarts it; the embedding is
the resulting list. -/
def MatrixArray.itercolumn (a : MatrixArray) : List ((Nat × Nat) × (Nat → ℚ)) :=
  ((prodRM a.rank).filter fun p => decide (p.1 ≤ p.2)).map
    fun p => (p, fun m => a.data m p.1 p.2)

/-- The right operand of the arithmetic operators: either another
`MatrixArray` (the `type(other) is MatrixArray` branch) or any other
numpy-broadcastable operand, represented by the buffer it broadcasts to
(a scalar `c` is the constant buffer `fun _ _ _ => c`). -/
inductive Operand where
  | marr : MatrixArray → Operand
  | other : Buf → Operand

/-- `MatrixArray.__truediv__`: scalar or elementwise division; asserts equal
spaces when the operand is a `MatrixArray`, then returns a new instance with
the left operand's `length`, `rank` and `space`. -/
def MatrixArray.truediv (a : MatrixArray) (o : Operand) : Except String MatrixArray :=
  match o with
  | .marr b =>
      if a.space = b.space then
        .ok (MatrixArray.mk0 a.length a.rank
          (some fun m i j => a.data m i j / b.data m i j) (some a.space))
      else .error MatrixArray.SpaceError
  | .other f =>
      .ok (MatrixArray.mk0 a.length a.rank
        (some fun m i j => a.data m i j / f m i j) (some a.space))

/-- `MatrixArray.__itruediv__`: in-place division. The second component is the
final state of `self`: the assert runs before `self.data /= ...`, so on a
space mismatch `self` is returned unchanged. -/
def MatrixArray.itruediv (a : MatrixArray) (o : Operand) :
    Except String MatrixArray × MatrixArray :=
  match o with
  | .marr b =>
      if a.space = b.space then
        let a' := { a with data := fun m i j => a.data m i j / b.data m i j }
        (.ok a', a')
      else (.error MatrixArray.SpaceError, a)
  | .other f =>
      let a' := { a with data := fun m i j => a.data m i j / f m i j }
      (.ok a', a')

/-- `MatrixArray.__mul__`: scalar or elementwise multiplication. -/
def MatrixArray.mul (a : MatrixArray) (o : Operand) : Except String MatrixArray :=
  match o with
  | .marr b =>
      if a.space = b.space then
        .ok (MatrixArray.mk0 a.length a.rank
          (some fun m i j => a.data m i j * b.data m i j) (some a.space))
      else .error MatrixArray.SpaceError
  | .other f =>
      .ok (MatrixArray.mk0 a.length a.rank
        (some fun m i j => a.data m i j * f m i j) (some a.space))

/-- `MatrixArray.__imul__`: in-place multiplication. -/
def MatrixArray.imul (a : MatrixArray) (o : Operand) :
    Except String MatrixArray × MatrixArray :=
  match o with
  | .marr b =>
      if a.space = b.space then
        let a' := { a with data := fun m i j => a.data m i j * b.data m i j }
        (.ok a', a')
      else (.error MatrixArray.SpaceError, a)
  | .other f =>
      let a' := { a with data := fun m i j => a.data m i j * f m i j }
      (.ok a', a')

/-- `MatrixArray.__add__`. -/
def MatrixArray.add (a : MatrixArray) (o : Operand) : Except String MatrixArray :=
  match o with
  | .marr b =>
      if a.space = b.space then
        .ok (MatrixArray.mk0 a.length a.rank
          (some fun m i j => a.data m i j + b.data m i j) (some a.space))
      else .error MatrixArray.SpaceError
  | .other f =>
      .ok (MatrixArray.mk0 a.length a.rank
        (some fun m i j => a.data m i j + f m i j) (some a.space))

/-- `MatrixArray.__iadd__`. -/
def MatrixArray.iadd (a : MatrixArray) (o : Operand) :
    Except String MatrixArray × MatrixArray :=
  match o with
  | .marr b =>
      if a.space = b.space then
        let a' := { a with data := fun m i j => a.data m i j + b.data m i j }
        (.ok a', a')
      else (.error MatrixArray.SpaceError, a)
  | .other f =>
      let a' := { a with data := fun m i j => a.data m i j + f m i j }
      (.ok a', a')

/-- `MatrixArray.__sub__`. -/
def MatrixArray.sub (a : MatrixArray) (o : Operand) : Except String MatrixArray :=
  match o with
  | .marr b =>
      if a.space = b.space then
        .ok (MatrixArray.mk0 a.length a.rank
          (some fun m i j => a.data m i j - b.data m i j) (some a.space))
      else .error MatrixArray.SpaceError
  | .other f =>
      .ok (MatrixArray.mk0 a.length a.rank
        (some fun m i j => a.data m i j - f m i j) (some a.space))

/-- `MatrixArray.__isub__`. -/
def MatrixArray.isub (a : MatrixArray) (o : Operand) :
    Except String MatrixArray × MatrixArray :=
  match o with
  | .marr b =>
      if a.space = b.space then
        let a' := { a with data := fun m i j => a.data m i j - b.data m i j }
        (.ok a', a')
      else (.error MatrixArray.SpaceError, a)
  | .other f =>
      let a' := { a with data := fun m i j => a.data m i j - f m i j }
      (.ok a', a')

/-- The buffer computed by `np.einsum('lij,ljk->lik', a.data, b.data)`:
per-slice matrix product, contracting over the shared inner dimension
(`a.rank` columns of the left slice). -/
def dotData (a b : MatrixArray) : Buf :=
  fun m i k => ∑ j ∈ Finset.range a.rank, a.data m i j * b.data m j k

/-- `MatrixArray.dot(self, other, inplace=False)`: batched matrix
multiplication.  No space assertion.  With `inplace=True` the method rebinds
`self.data` to the product and returns `self`; otherwise it returns a new
instance with `self`'s `length`, `rank` and `space`. -/
def MatrixArray.dot (a b : MatrixArray) (inplace : Bool) : MatrixArray :=
  if inplace then
    { a with data := dotData a b }
  else
    MatrixArray.mk0 a.length a.rank (some (dotData a b)) (some a.space)

/-- `MatrixArray.__matmul__`: asserts equal spaces, then `dot(other, inplace=False)`. -/
def MatrixArray.matmul (a b : MatrixArray) : Except String MatrixArray :=
  if a.space = b.space then .ok (a.dot b false)
  else .error MatrixArray.SpaceError

/-- `MatrixArray.__imatmul__`: asserts equal spaces, then
`dot(other, inplace=True)`.  The second component is the final state of
`self` (unchanged when the assert fires, since it precedes the rebind). -/
def MatrixArray.imatmul (a b : MatrixArray) :
    Except String MatrixArray × MatrixArray :=
  if a.space = b.space then
    let a' := a.dot b true
    (.ok a', a')
  else (.error MatrixArray.SpaceError, a)

/-- The `rank × rank` matrix slice `f` of a buffer row, as a Mathlib matrix. -/
def toMat (r : Nat) (f : Nat → Nat → ℚ) : Matrix (Fin r) (Fin r) ℚ :=
  Matrix.of fun i j => f i.1 j.1

/-- `np.linalg.inv` on one `rank × rank` slice, over exact rationals:
the inverse matrix `det⁻¹ · adjugate` (the unique inverse when the slice is
non-singular), read back as a function on in-range indices. -/
def matInvFun (r : Nat) (f : Nat → Nat → ℚ) : Nat → Nat → ℚ :=
  fun i j =>
    if h : i < r ∧ j < r then
      ((toMat r f).det)⁻¹ * (toMat r f).adjugate ⟨i, h.1⟩ ⟨j, h.2⟩
    else 0

/-- The buffer after the loop `for i in range(length): data[i] = inv(self.data[i])`,
starting from (a copy of) `d`: slices `m < L` are inverted on their
`rank × rank` extent, everything else keeps its value from `d`. -/
def invertData (L r : Nat) (d : Buf) : Buf :=
  fun m i j =>
    if m < L ∧ i < r ∧ j < r then matInvFun r (d m) i j else d m i j

/-- `MatrixArray.invert(self, inplace=False)`: batched matrix inversion.
With `inplace=True` the loop writes into `self.data` and `self` is returned
(each `np.linalg.inv(self.data[i])` is computed before `data[i]` is
overwritten, so the in-place loop computes the same buffer as the copying
one); with `inplace=False` the loop writes into `np.copy(self.data)` and a new
instance with the same `rank`, `length` and `space` is returned. -/
def MatrixArray.invert (a : MatrixArray) (inplace : Bool) : MatrixArray :=
  if inplace then
    { a with data := invertData a.length a.rank a.data }
  else
    MatrixArray.mk0 a.length a.rank (some (invertData a.length a.rank a.data))
      (some a.space)

/-- The `NoIntra` omega: its only state is the `value` attribute set by
`calculate` (absent before the first call).  The 1-D wavenumber array `k`
(`Domain.k`) is a list of rationals. -/
structure NoIntra where
  value : Option (List ℚ)

/-- `NoIntra.calculate(self, k)`: `self.value = np.zeros_like(k); return self.value`
— a zero array of the same shape as `k`.  Returns the result and the updated
instance. -/
def NoIntra.calculate (_w : NoIntra) (k : List ℚ) : List ℚ × NoIntra :=
  let v := k.map fun _ => 0
  (v, { value := some v })

/- ------------------------------------------------------------------ -/
/- Store-level embedding: numpy buffers live in a store, instances hold
   a pointer.  `np.copy`, `np.einsum`, and the binary arithmetic operators
   allocate fresh buffers; the in-place arithmetic operators write through
   the instance's pointer.                                             -/
/- ------------------------------------------------------------------ -/

/-- A heap of numpy buffers; a buffer is named by its index in the list. -/
structure Store where
  bufs : List Buf

/-- Read the buffer at index `p` (out-of-store reads give the zero buffer). -/
def Store.read (s : Store) (p : Nat) : Buf :=
  s.bufs.getD p (fun _ _ _ => 0)

/-- Overwrite the buffer at index `p` in place. -/
def Store.write (s : Store) (p : Nat) (d : Buf) : Store :=
  ⟨s.bufs.set p d⟩

/-- Allocate a fresh buffer holding `d`; returns the new store and the new
buffer's index. -/
def Store.alloc (s : Store) (d : Buf) : Store × Nat :=
  (⟨s.bufs ++ [d]⟩, s.bufs.length)

/-- A `MatrixArray` instance at store level: its fields, with the data buffer
held by reference. -/
structure MARef where
  length : Nat
  rank : Nat
  buf : Nat
  space : Space
deriving DecidableEq

/-- The right operand at store level: another instance, or a broadcastable
non-`MatrixArray` operand given by the buffer it broadcasts to. -/
inductive OperandH where
  | marr : MARef → OperandH
  | other : Buf → OperandH

/-- Elementwise combination of two buffers. -/
def bufZip (op : ℚ → ℚ → ℚ) (d e : Buf) : Buf :=
  fun m i j => op (d m i j) (e m i j)

/-- Store-level non-mutating arithmetic operator (`__add__`, `__sub__`,
`__mul__`, `__truediv__`, abstracted over the elementwise `op`): asserts equal
spaces for a `MatrixArray` operand, computes the elementwise result into a
freshly allocated buffer (numpy's `self.data + other.data` allocates), and
wraps it in a new instance with the left operand's `length`, `rank`, `space`. -/
def binH (op : ℚ → ℚ → ℚ) (s : Store) (a : MARef) (o : OperandH) :
    Except String (Store × MARef) :=
  match o with
  | .marr b =>
      if a.space = b.space then
        let p := s.alloc (bufZip op (s.read a.buf) (s.read b.buf))
        .ok (p.1, ⟨a.length, a.rank, p.2, a.space⟩)
      else .error MatrixArray.SpaceError
  | .other f =>
      let p := s.alloc (bufZip op (s.read a.buf) f)
      .ok (p.1, ⟨a.length, a.rank, p.2, a.space⟩)

/-- Store-level in-place arithmetic operator (`__iadd__`, `__isub__`,
`__imul__`, `__itruediv__`): the assert runs first (on failure the store is
untouched); on success `self.data op= ...` overwrites the instance's own
buffer in place and the very same instance is returned. -/
def ibinH (op : ℚ → ℚ → ℚ) (s : Store) (a : MARef) (o : OperandH) :
    Except String MARef × Store :=
  match o with
  | .marr b =>
      if a.space = b.space then
        (.ok a, s.write a.buf (bufZip op (s.read a.buf) (s.read b.buf)))
      else (.error MatrixArray.SpaceError, s)
  | .other f =>
      (.ok a, s.write a.buf (bufZip op (s.read a.buf) f))

/-- Store-level `dot(other, inplace=False)`: `np.einsum` allocates the product
buffer; a new instance with `self`'s `length`, `rank`, `space` wraps it.
No space assertion. -/
def dotH (s : Store) (a b : MARef) : Store × MARef :=
  let d : Buf := fun m i k =>
    ∑ j ∈ Finset.range a.rank, s.read a.buf m i j * s.read b.buf m j k
  let p := s.alloc d
  (p.1, ⟨a.length, a.rank, p.2, a.space⟩)

/-- Store-level `dot(other, inplace=True)`: `np.einsum` allocates the product
buffer and `self.data = ...` rebinds the instance's pointer to it; the same
instance (with the rebound pointer) is returned. -/
def dotInplaceH (s : Store) (a b : MARef) : Store × MARef :=
  let d : Buf := fun m i k =>
    ∑ j ∈ Finset.range a.rank, s.read a.buf m i j * s.read b.buf m j k
  let p := s.alloc d
  (p.1, { a with buf := p.2 })

/-- Store-level `__imatmul__`: asserts equal spaces (store untouched on
failure), then `dot(other, inplace=True)`. -/
def imatmulH (s : Store) (a b : MARef) : Except String MARef × Store :=
  if a.space = b.space then
    let p := dotInplaceH s a b
    (.ok p.2, p.1)
  else (.error MatrixArray.SpaceError, s)

/-- Store-level `invert(inplace=False)`: `np.copy(self.data)` allocates the
result buffer, the loop inverts its slices, and a new instance with `self`'s
fields wraps it. -/
def invertH (s : Store) (a : MARef) : Store × MARef :=
  let p := s.alloc (invertData a.length a.rank (s.read a.buf))
  (p.1, ⟨a.length, a.rank, p.2, a.space⟩)

/- ------------------------------------------------------------------ -/
/- Helper lemmas.                                                     -/
/- ------------------------------------------------------------------ -/

/-- Row-major (lexicographic) strict order on index pairs. -/
def lexLT (p q : Nat × Nat) : Prop :=
  p.1 < q.1 ∨ (p.1 = q.1 ∧ p.2 < q.2)

lemma countP_le_range (i r : Nat) :
    (List.range r).countP (fun j => decide (i ≤ j)) = r - i := by
  induction r with
  | zero => simp
  | succ s ih =>
      rw [List.range_succ, List.countP_append, ih, List.countP_cons, List.countP_nil]
      by_cases h : i ≤ s <;> simp [h] <;> omega

lemma sum_range_sub_mul_two (r : Nat) :
    (∑ i ∈ Finset.range r, (r - i)) * 2 = r * (r + 1) := by
  have h1 : (∑ i ∈ Finset.range r, (r - i)) = ∑ i ∈ Finset.range r, (i + 1) := by
    rw [← Finset.sum_range_reflect]
    apply Finset.sum_congr rfl
    intro i hi
    rw [Finset.mem_range] at hi
    omega
  rw [h1, Finset.sum_add_distrib, Finset.sum_const, Finset.card_range, smul_eq_mul,
    mul_one, add_mul, Finset.sum_range_id_mul_two]
  cases r with
  | zero => simp
  | succ s =>
      have h2 : s + 1 - 1 = s := rfl
      rw [h2]
      ring

lemma countP_prodRM (r : Nat) :
    (prodRM r).countP (fun p => decide (p.1 ≤ p.2)) = ∑ i ∈ Finset.range r, (r - i) := by
  rw [prodRM, List.countP_flatMap]
  trans (List.map (fun i => r - i) (List.range r)).sum
  · apply congrArg List.sum
    apply List.map_congr_left
    intro i _
    simp only [Function.comp_apply, List.countP_map]
    exact countP_le_range i r
  · rfl

lemma prodRM_pairwise (r : Nat) : (prodRM r).Pairwise lexLT := by
  rw [prodRM, List.pairwise_flatMap]
  constructor
  · intro i _
    rw [List.pairwise_map]
    exact (List.pairwise_lt_range r).imp fun h => Or.inr ⟨rfl, h⟩
  · have h := List.pairwise_lt_range r
    apply h.imp
    intro i₁ i₂ hlt x hx y hy
    rw [List.mem_map] at hx hy
    obtain ⟨j₁, _, hj₁⟩ := hx
    obtain ⟨j₂, _, hj₂⟩ := hy
    subst hj₁
    subst hj₂
    exact Or.inl hlt

lemma itercolumn_keys (a : MatrixArray) :
    a.itercolumn.map Prod.fst = (prodRM a.rank).filter fun p => decide (p.1 ≤ p.2) := by
  rw [MatrixArray.itercolumn, List.map_map]
  exact List.map_id'' (fun p => rfl) _

/-- C5: for rank `r`, `itercolumn()` yields exactly `r*(r+1)/2` pairs; every
yielded pair `((i,j), c)` satisfies `i ≤ j < r` with `c` equal to the column
`data[:,i,j]`; every `(i,j)` with `i ≤ j < r` is yielded (with its column);
and the keys appear in strictly increasing row-major (lexicographic) order,
so no pair appears twice.  (The Python generator is finite, and a fresh call
restarts from the beginning: the embedding of a call is this fixed list.) -/
theorem itercolumn_upper_triangle (a : MatrixArray) :
    a.itercolumn.length = a.rank * (a.rank + 1) / 2 ∧
    (∀ p ∈ a.itercolumn,
      p.1.1 ≤ p.1.2 ∧ p.1.1 < a.rank ∧ p.1.2 < a.rank ∧
      ∀ m, p.2 m = a.data m p.1.1 p.1.2) ∧
    (∀ i j, i ≤ j → j < a.rank →
      ((i, j), fun m => a.data m i j) ∈ a.itercolumn) ∧
    (a.itercolumn.map Prod.fst).Pairwise lexLT := by
  refine ⟨?_, ?_, ?_, ?_⟩
  · have h1 : a.itercolumn.length = (a.itercolumn.map Prod.fst).length := by
      rw [List.length_map]
    rw [h1, itercolumn_keys, ← List.countP_eq_length_filter, countP_prodRM]
    symm
    exact Nat.div_eq_of_eq_mul_left (by norm_num) (sum_range_sub_mul_two a.rank).symm
  · intro p hp
    rw [MatrixArray.itercolumn, List.mem_map] at hp
    obtain ⟨q, hq, hpq⟩ := hp
    rw [List.mem_filter] at hq
    obtain ⟨hqmem, hqle⟩ := hq
    rw [prodRM, List.mem_flatMap] at hqmem
    obtain ⟨i, hi, hq2⟩ := hqmem
    rw [List.mem_map] at hq2
    obtain ⟨j, hj, hq3⟩ := hq2
    subst hq3
    subst hpq
    rw [List.mem_range] at hi hj
    exact ⟨by simpa using hqle, hi, hj, fun m => rfl⟩
  · intro i j hij hj
    rw [MatrixArray.itercolumn, List.mem_map]
    refine ⟨(i, j), ?_, rfl⟩
    rw [List.mem_filter, prodRM, List.mem_flatMap]
    refine ⟨⟨i, ?_, ?_⟩, by simpa using hij⟩
    · rw [List.mem_range]; omega
    · rw [List.mem_map]; exact ⟨j, by rw [List.mem_range]; omega, rfl⟩
  · rw [itercolumn_keys]
    exact (prodRM_pairwise a.rank).sublist (List.filter_sublist _)

/- Example instances used by the concrete witnesses. -/

/-- A 3-long, rank-2 real-space example instance. -/
def exA : MatrixArray :=
  MatrixArray.mk0 3 2 (some fun m i j => (m : ℚ) + 10 * i + 100 * j) none

/-- A 3-long, rank-2 Fourier-space example instance. -/
def exFB : MatrixArray :=
  MatrixArray.mk0 3 2 (some fun _ _ _ => 2) (some Space.Fourier)

/-- An example column value. -/
def exV : Nat → ℚ := fun m => (m : ℚ) + 7

/-- C1: for valid indices `(i, j)`, the keyed column setter writes `v` into
`data[:,i,j]` and into `data[:,j,i]` (reading `[i,j]` and `[j,i]` afterwards
both return `v` for all `length` matrices; when `i = j` that is the single
diagonal cell), leaves all cells other than `(i,j)` and `(j,i)` unchanged,
and touches none of `length`, `rank`, `space`. -/
theorem setItem_symmetric (a : MatrixArray) (i j : Nat) (v : Nat → ℚ)
    (_hi : i < a.rank) (_hj : j < a.rank) :
    (∀ m, (a.setItem i j v).getItem i j m = v m) ∧
    (∀ m, (a.setItem i j v).getItem j i m = v m) ∧
    (∀ m p q, ¬(p = i ∧ q = j) → ¬(p = j ∧ q = i) →
      (a.setItem i j v).data m p q = a.data m p q) ∧
    (a.setItem i j v).length = a.length ∧
    (a.setItem i j v).rank = a.rank ∧
    (a.setItem i j v).space = a.space := by
  by_cases hij : i = j
  · subst hij
    refine ⟨fun m => ?_, fun m => ?_, fun m p q h1 _ => ?_, ?_, ?_, ?_⟩
    · simp [MatrixArray.setItem, MatrixArray.getItem, updCol]
    · simp [MatrixArray.setItem, MatrixArray.getItem, updCol]
    · unfold MatrixArray.setItem
      rw [if_pos rfl]
      show (if p = i ∧ q = i then v m else a.data m p q) = a.data m p q
      exact if_neg h1
    · simp [MatrixArray.setItem]
    · simp [MatrixArray.setItem]
    · simp [MatrixArray.setItem]
  · refine ⟨fun m => ?_, fun m => ?_, fun m p q h1 h2 => ?_, ?_, ?_, ?_⟩
    · simp [MatrixArray.setItem, MatrixArray.getItem, updCol, hij]
    · simp [MatrixArray.setItem, MatrixArray.getItem, updCol, hij]
    · unfold MatrixArray.setItem
      rw [if_neg hij]
      show (if p = j ∧ q = i then v m
        else if p = i ∧ q = j then v m else a.data m p q) = a.data m p q
      rw [if_neg h2, if_neg h1]
    · simp [MatrixArray.setItem, hij]
    · simp [MatrixArray.setItem, hij]
    · simp [MatrixArray.setItem, hij]

/-- Witness for C1 at `exA`, `(i,j) = (0,1)`, `v = exV`. -/
theorem setItem_symmetric_witness :
    ((0 : Nat) < exA.rank ∧ (1 : Nat) < exA.rank) ∧
    ((∀ m, (exA.setItem 0 1 exV).getItem 0 1 m = exV m) ∧
     (∀ m, (exA.setItem 0 1 exV).getItem 1 0 m = exV m) ∧
     (∀ m p q, ¬(p = 0 ∧ q = 1) → ¬(p = 1 ∧ q = 0) →
       (exA.setItem 0 1 exV).data m p q = exA.data m p q) ∧
     (exA.setItem 0 1 exV).length = exA.length ∧
     (exA.setItem 0 1 exV).rank = exA.rank ∧
     (exA.setItem 0 1 exV).space = exA.space) :=
  ⟨⟨by decide, by decide⟩, setItem_symmetric exA 0 1 exV (by decide) (by decide)⟩

/-- C8: `MatrixArray(length, rank)` with `data` omitted has an all-zero
buffer over its `(length, rank, rank)` extent, and with `space` omitted its
space tag is `Real` (its `length` and `rank` are the given ones). -/
theorem construct_defaults (L r : Nat) :
    (MatrixArray.mk0 L r none none).length = L ∧
    (MatrixArray.mk0 L r none none).rank = r ∧
    (MatrixArray.mk0 L r none none).space = Space.Real ∧
    ∀ m i j, m < L → i < r → j < r → (MatrixArray.mk0 L r none none).data m i j = 0 :=
  ⟨rfl, rfl, rfl, fun _ _ _ _ _ _ => rfl⟩

/-- Witness for C8 at `length = 3`, `rank = 2`, entry `(0,1,1)`. -/
theorem construct_defaults_witness :
    (MatrixArray.mk0 3 2 none none).space = Space.Real ∧
    ((0 : Nat) < 3 ∧ (1 : Nat) < 2) ∧
    (MatrixArray.mk0 3 2 none none).data 0 1 1 = 0 :=
  ⟨(construct_defaults 3 2).2.2.1, ⟨by decide, by decide⟩,
    (construct_defaults 3 2).2.2.2 0 1 1 (by decide) (by decide) (by decide)⟩

/-- C10: `NoIntra.calculate(k)` returns a zero array of the same shape as
`k`, stores that same array in `value`, and depends only on the shape of
`k`, not on its entries. -/
theorem noIntra_calculate_zero (w : NoIntra) (k : List ℚ) :
    ((w.calculate k).1).length = k.length ∧
    (∀ x ∈ (w.calculate k).1, x = 0) ∧
    ((w.calculate k).2).value = some ((w.calculate k).1) ∧
    (∀ (w' : NoIntra) (k' : List ℚ), k'.length = k.length →
      (w'.calculate k').1 = (w.calculate k).1) := by
  refine ⟨by simp [NoIntra.calculate], ?_, rfl, ?_⟩
  · intro x hx
    simp only [NoIntra.calculate, List.mem_map] at hx
    obtain ⟨y, -, hy⟩ := hx
    exact hy.symm
  · intro w' k' hk
    show k'.map (fun _ => 0) = k.map (fun _ => 0)
    rw [List.map_const', List.map_const', hk]

/-- Witness for C10 at `k = [1, 2, 3]` and the shape-only dependence at
`k' = [4, 5, 6]`. -/
theorem noIntra_calculate_zero_witness :
    ((NoIntra.mk none).calculate [1, 2, 3]).1.length = ([1, 2, 3] : List ℚ).length ∧
    ([4, 5, 6] : List ℚ).length = ([1, 2, 3] : List ℚ).length ∧
    ((NoIntra.mk (some [9])).calculate [4, 5, 6]).1 =
      ((NoIntra.mk none).calculate [1, 2, 3]).1 :=
  ⟨(noIntra_calculate_zero (NoIntra.mk none) [1, 2, 3]).1, by decide,
    (noIntra_calculate_zero (NoIntra.mk none) [1, 2, 3]).2.2.2
      (NoIntra.mk (some [9])) [4, 5, 6] (by decide)⟩

/-- C7: the space tag is fixed at construction (a constructed instance
carries exactly the supplied tag) and no mutating operation — the column
setter, the four in-place arithmetic operators, `invert(inplace=True)`,
`dot(other, inplace=True)`, or `@=` — changes an instance's `space`. -/
theorem space_fixed (a b : MatrixArray) (o : Operand) (i j : Nat) (v : Nat → ℚ)
    (L r : Nat) (d : Option Buf) (sp : Space) :
    (MatrixArray.mk0 L r d (some sp)).space = sp ∧
    (a.setItem i j v).space = a.space ∧
    ((a.itruediv o).2).space = a.space ∧
    ((a.imul o).2).space = a.space ∧
    ((a.iadd o).2).space = a.space ∧
    ((a.isub o).2).space = a.space ∧
    (a.invert true).space = a.space ∧
    (a.dot b true).space = a.space ∧
    ((a.imatmul b).2).space = a.space := by
  refine ⟨rfl, ?_, ?_, ?_, ?_, ?_, rfl, rfl, ?_⟩
  · unfold MatrixArray.setItem
    split <;> rfl
  · rcases o with b' | f
    · unfold MatrixArray.itruediv
      dsimp only
      split <;> rfl
    · rfl
  · rcases o with b' | f
    · unfold MatrixArray.imul
      dsimp only
      split <;> rfl
    · rfl
  · rcases o with b' | f
    · unfold MatrixArray.iadd
      dsimp only
      split <;> rfl
    · rfl
  · rcases o with b' | f
    · unfold MatrixArray.isub
      dsimp only
      split <;> rfl
    · rfl
  · unfold MatrixArray.imatmul
    dsimp only
    split <;> rfl

/-- C2: between two instances in different spaces, every elementwise binary
operator (`/ * + -` and their in-place forms) and both operator forms of
batched multiplication (`@`, `@=`) fail with the space-mismatch assertion,
while the plain `dot` method raises nothing: it returns the batched matrix
product (per-slice contraction over the shared inner dimension) carrying the
left operand's `space` tag (and `length` and `rank`). -/
theorem space_mismatch_guard (a b : MatrixArray) (h : a.space ≠ b.space) :
    a.truediv (.marr b) = .error MatrixArray.SpaceError ∧
    a.mul (.marr b) = .error MatrixArray.SpaceError ∧
    a.add (.marr b) = .error MatrixArray.SpaceError ∧
    a.sub (.marr b) = .error MatrixArray.SpaceError ∧
    (a.itruediv (.marr b)).1 = .error MatrixArray.SpaceError ∧
    (a.imul (.marr b)).1 = .error MatrixArray.SpaceError ∧
    (a.iadd (.marr b)).1 = .error MatrixArray.SpaceError ∧
    (a.isub (.marr b)).1 = .error MatrixArray.SpaceError ∧
    a.matmul b = .error MatrixArray.SpaceError ∧
    (a.imatmul b).1 = .error MatrixArray.SpaceError ∧
    (a.dot b false).space = a.space ∧
    (a.dot b false).length = a.length ∧
    (a.dot b false).rank = a.rank ∧
    (∀ m i k, (a.dot b false).data m i k =
      ∑ j ∈ Finset.range a.rank, a.data m i j * b.data m j k) := by
  refine ⟨?_, ?_, ?_, ?_, ?_, ?_, ?_, ?_, ?_, ?_, rfl, rfl, rfl, fun m i k => rfl⟩
  · simp [MatrixArray.truediv, h]
  · simp [MatrixArray.mul, h]
  · simp [MatrixArray.add, h]
  · simp [MatrixArray.sub, h]
  · simp [MatrixArray.itruediv, h]
  · simp [MatrixArray.imul, h]
  · simp [MatrixArray.iadd, h]
  · simp [MatrixArray.isub, h]
  · simp [MatrixArray.matmul, h]
  · simp [MatrixArray.imatmul, h]

/-- Witness for C2 at `exA` (real space) and `exFB` (Fourier space). -/
theorem space_mismatch_guard_witness :
    exA.space ≠ exFB.space ∧
    (exA.truediv (.marr exFB) = .error MatrixArray.SpaceError ∧
     exA.mul (.marr exFB) = .error MatrixArray.SpaceError ∧
     exA.add (.marr exFB) = .error MatrixArray.SpaceError ∧
     exA.sub (.marr exFB) = .error MatrixArray.SpaceError ∧
     (exA.itruediv (.marr exFB)).1 = .error MatrixArray.SpaceError ∧
     (exA.imul (.marr exFB)).1 = .error MatrixArray.SpaceError ∧
     (exA.iadd (.marr exFB)).1 = .error MatrixArray.SpaceError ∧
     (exA.isub (.marr exFB)).1 = .error MatrixArray.SpaceError ∧
     exA.matmul exFB = .error MatrixArray.SpaceError ∧
     (exA.imatmul exFB).1 = .error MatrixArray.SpaceError ∧
     (exA.dot exFB false).space = exA.space ∧
     (exA.dot exFB false).length = exA.length ∧
     (exA.dot exFB false).rank = exA.rank ∧
     (∀ m i k, (exA.dot exFB false).data m i k =
       ∑ j ∈ Finset.range exA.rank, exA.data m i j * exFB.data m j k)) :=
  ⟨by decide, space_mismatch_guard exA exFB (by decide)⟩

lemma toMat_matInvFun (r : Nat) (f : Nat → Nat → ℚ) :
    toMat r (matInvFun r f) = (toMat r f)⁻¹ := by
  ext i j
  simp [toMat, matInvFun, i.2, j.2, Matrix.inv_def, Ring.inverse_eq_inv']

/-- C6: if every `rank × rank` slice of `a` has nonzero determinant (is
invertible), then `a.dot(a.invert())` has, at every matrix index `m < length`,
exactly the identity matrix (over the exact rational arithmetic of the
embedding; the spec states the same property up to floating-point tolerance). -/
theorem dot_invert_identity (a : MatrixArray)
    (h : ∀ m, m < a.length → (toMat a.rank (a.data m)).det ≠ 0) :
    ∀ m i k, m < a.length → i < a.rank → k < a.rank →
      (a.dot (a.invert false) false).data m i k = if i = k then 1 else 0 := by
  intro m i k hm hi hk
  have hunit : IsUnit (toMat a.rank (a.data m)).det :=
    isUnit_iff_ne_zero.mpr (h m hm)
  have hinv : toMat a.rank (a.data m) * toMat a.rank (matInvFun a.rank (a.data m)) = 1 := by
    rw [toMat_matInvFun]
    exact Matrix.mul_nonsing_inv _ hunit
  have hsum : (a.dot (a.invert false) false).data m i k
      = ∑ j ∈ Finset.range a.rank, a.data m i j * matInvFun a.rank (a.data m) j k := by
    show dotData a (a.invert false) m i k = _
    unfold dotData
    apply Finset.sum_congr rfl
    intro j hj
    rw [Finset.mem_range] at hj
    have : (a.invert false).data m j k = matInvFun a.rank (a.data m) j k := by
      show invertData a.length a.rank a.data m j k = _
      unfold invertData
      rw [if_pos ⟨hm, hj, hk⟩]
    rw [this]
  have hfin : (∑ j ∈ Finset.range a.rank, a.data m i j * matInvFun a.rank (a.data m) j k)
      = (toMat a.rank (a.data m) * toMat a.rank (matInvFun a.rank (a.data m)))
          ⟨i, hi⟩ ⟨k, hk⟩ := by
    rw [Matrix.mul_apply,
      ← Fin.sum_univ_eq_sum_range (fun j => a.data m i j * matInvFun a.rank (a.data m) j k)]
    rfl
  rw [hsum, hfin, hinv, Matrix.one_apply]
  by_cases hik : i = k
  · subst hik
    rw [if_pos rfl, if_pos rfl]
  · rw [if_neg (fun hc => hik (by simpa using hc)), if_neg hik]

/-- A length-1 array holding the single invertible 1×1 matrix `(2)`. -/
def exInv : MatrixArray := MatrixArray.mk0 1 1 (some fun _ _ _ => 2) none

/-- Witness for C6 at `exInv`. -/
theorem dot_invert_identity_witness :
    (∀ m, m < exInv.length → (toMat exInv.rank (exInv.data m)).det ≠ 0) ∧
    (∀ m i k, m < exInv.length → i < exInv.rank → k < exInv.rank →
      (exInv.dot (exInv.invert false) false).data m i k = if i = k then 1 else 0) := by
  have hdet : ∀ m, m < exInv.length → (toMat exInv.rank (exInv.data m)).det ≠ 0 := by
    intro m _
    rw [Matrix.det_fin_one]
    norm_num [toMat, exInv, MatrixArray.mk0]
  exact ⟨hdet, dot_invert_identity exInv hdet⟩

/-- `__add__` at store level. -/
def addH : Store → MARef → OperandH → Except String (Store × MARef) := binH (· + ·)

/-- `__sub__` at store level. -/
def subH : Store → MARef → OperandH → Except String (Store × MARef) := binH (· - ·)

/-- `__mul__` at store level. -/
def mulH : Store → MARef → OperandH → Except String (Store × MARef) := binH (· * ·)

/-- `__truediv__` at store level. -/
def divH : Store → MARef → OperandH → Except String (Store × MARef) := binH (· / ·)

/-- `__iadd__` at store level. -/
def iaddH : Store → MARef → OperandH → Except String MARef × Store := ibinH (· + ·)

/-- `__isub__` at store level. -/
def isubH : Store → MARef → OperandH → Except String MARef × Store := ibinH (· - ·)

/-- `__imul__` at store level. -/
def imulH : Store → MARef → OperandH → Except String MARef × Store := ibinH (· * ·)

/-- `__itruediv__` at store level. -/
def idivH : Store → MARef → OperandH → Except String MARef × Store := ibinH (· / ·)

lemma Store.read_write_self (s : Store) (p : Nat) (d : Buf) (h : p < s.bufs.length) :
    (s.write p d).read p = d := by
  simp [Store.read, Store.write, List.getD, List.getElem?_set_self, h]

lemma Store.read_write_ne (s : Store) (p q : Nat) (d : Buf) (h : q ≠ p) :
    (s.write p d).read q = s.read q := by
  simp [Store.read, Store.write, List.getD, List.getElem?_set_ne (Ne.symm h)]

lemma Store.read_alloc_old (s : Store) (d : Buf) (p : Nat) (h : p < s.bufs.length) :
    ((s.alloc d).1).read p = s.read p := by
  simp [Store.read, Store.alloc, List.getD, List.getElem?_append_left h]

lemma Store.read_alloc_new (s : Store) (d : Buf) :
    ((s.alloc d).1).read (s.alloc d).2 = d := by
  simp [Store.read, Store.alloc, List.getD, List.getElem?_append_right (Nat.le_refl _)]

/-- A valid right operand for the arithmetic operators: another instance of
the same shape and space, or a broadcast-compatible non-`MatrixArray`
operand. -/
def validOpH (a : MARef) : OperandH → Prop
  | .marr b => b.length = a.length ∧ b.rank = a.rank ∧ b.space = a.space
  | .other _ => True

lemma ibinH_eq_binH (op : ℚ → ℚ → ℚ) (s : Store) (a : MARef) (o : OperandH)
    (ha : a.buf < s.bufs.length) (h : validOpH a o) :
    (ibinH op s a o).1 = .ok a ∧
    ∃ s' r, binH op s a o = .ok (s', r) ∧
      ((ibinH op s a o).2).read a.buf = s'.read r.buf := by
  rcases o with b | f
  · have hsp : a.space = b.space := h.2.2.symm
    constructor
    · simp [ibinH, hsp]
    · refine ⟨(s.alloc (bufZip op (s.read a.buf) (s.read b.buf))).1,
        ⟨a.length, a.rank, (s.alloc (bufZip op (s.read a.buf) (s.read b.buf))).2, a.space⟩,
        by simp [binH, hsp], ?_⟩
      simp only [ibinH, if_pos hsp]
      rw [Store.read_write_self s a.buf _ ha]
      exact (Store.read_alloc_new s _).symm
  · constructor
    · simp [ibinH]
    · refine ⟨(s.alloc (bufZip op (s.read a.buf) f)).1,
        ⟨a.length, a.rank, (s.alloc (bufZip op (s.read a.buf) f)).2, a.space⟩,
        by simp [binH], ?_⟩
      simp only [ibinH]
      rw [Store.read_write_self s a.buf _ ha]
      exact (Store.read_alloc_new s _).symm

/-- C3: with a valid operand, each of the four in-place arithmetic operators
returns the very same instance `a` (not a copy), and afterwards `a`'s buffer
is equal, element for element, to the buffer of the result of the
corresponding non-mutating operator. -/
theorem inplace_equals_outofplace (s : Store) (a : MARef) (o : OperandH)
    (ha : a.buf < s.bufs.length) (h : validOpH a o) :
    ((iaddH s a o).1 = .ok a ∧
      ∃ s' r, addH s a o = .ok (s', r) ∧
        ((iaddH s a o).2).read a.buf = s'.read r.buf) ∧
    ((isubH s a o).1 = .ok a ∧
      ∃ s' r, subH s a o = .ok (s', r) ∧
        ((isubH s a o).2).read a.buf = s'.read r.buf) ∧
    ((imulH s a o).1 = .ok a ∧
      ∃ s' r, mulH s a o = .ok (s', r) ∧
        ((imulH s a o).2).read a.buf = s'.read r.buf) ∧
    ((idivH s a o).1 = .ok a ∧
      ∃ s' r, divH s a o = .ok (s', r) ∧
        ((idivH s a o).2).read a.buf = s'.read r.buf) :=
  ⟨ibinH_eq_binH (· + ·) s a o ha h, ibinH_eq_binH (· - ·) s a o ha h,
   ibinH_eq_binH (· * ·) s a o ha h, ibinH_eq_binH (· / ·) s a o ha h⟩

/-- Freshness contract of a non-mutating operation at store level: the result
carries the left operand's `length`, `rank` and `space`; its buffer is a new
one, distinct from both operands' buffers; all pre-existing buffers (in
particular both operands') are unmodified; and overwriting the result's
buffer does not change what the operands see, nor vice versa. -/
def FreshResult (s : Store) (a b : MARef) (s' : Store) (r : MARef) : Prop :=
  r.length = a.length ∧ r.rank = a.rank ∧ r.space = a.space ∧
  r.buf ≠ a.buf ∧ r.buf ≠ b.buf ∧
  (∀ p, p < s.bufs.length → s'.read p = s.read p) ∧
  (∀ e : Buf, (s'.write r.buf e).read a.buf = s'.read a.buf ∧
              (s'.write r.buf e).read b.buf = s'.read b.buf) ∧
  (∀ e : Buf, (s'.write a.buf e).read r.buf = s'.read r.buf ∧
              (s'.write b.buf e).read r.buf = s'.read r.buf)

lemma fresh_alloc (s : Store) (a b : MARef) (d : Buf)
    (ha : a.buf < s.bufs.length) (hb : b.buf < s.bufs.length) :
    FreshResult s a b (s.alloc d).1 ⟨a.length, a.rank, (s.alloc d).2, a.space⟩ := by
  have hna : (s.alloc d).2 ≠ a.buf := Nat.ne_of_gt ha
  have hnb : (s.alloc d).2 ≠ b.buf := Nat.ne_of_gt hb
  refine ⟨rfl, rfl, rfl, hna, hnb, ?_, ?_, ?_⟩
  · intro p hp
    exact Store.read_alloc_old s d p hp
  · intro e
    exact ⟨Store.read_write_ne _ _ _ _ (Ne.symm hna),
           Store.read_write_ne _ _ _ _ (Ne.symm hnb)⟩
  · intro e
    exact ⟨Store.read_write_ne _ _ _ _ hna, Store.read_write_ne _ _ _ _ hnb⟩

/-- C4: every non-mutating operation — the four elementwise operators between
two same-space instances, `dot(other, inplace=False)`, and
`invert(inplace=False)` — returns a new instance with the left operand's
`length`, `rank` and `space` whose buffer is freshly allocated and
independent of both operands' buffers, leaving the operands' buffers
unmodified (and later writes to either side do not affect the other). -/
theorem nonmutating_fresh_buffer (s : Store) (a b : MARef) (f : Buf)
    (ha : a.buf < s.bufs.length) (hb : b.buf < s.bufs.length)
    (hsp : a.space = b.space) :
    (∃ s' r, addH s a (.marr b) = .ok (s', r) ∧ FreshResult s a b s' r) ∧
    (∃ s' r, subH s a (.marr b) = .ok (s', r) ∧ FreshResult s a b s' r) ∧
    (∃ s' r, mulH s a (.marr b) = .ok (s', r) ∧ FreshResult s a b s' r) ∧
    (∃ s' r, divH s a (.marr b) = .ok (s', r) ∧ FreshResult s a b s' r) ∧
    (∃ s' r, addH s a (.other f) = .ok (s', r) ∧ FreshResult s a a s' r) ∧
    (∃ s' r, subH s a (.other f) = .ok (s', r) ∧ FreshResult s a a s' r) ∧
    (∃ s' r, mulH s a (.other f) = .ok (s', r) ∧ FreshResult s a a s' r) ∧
    (∃ s' r, divH s a (.other f) = .ok (s', r) ∧ FreshResult s a a s' r) ∧
    FreshResult s a b (dotH s a b).1 (dotH s a b).2 ∧
    FreshResult s a a (invertH s a).1 (invertH s a).2 := by
  have hgen : ∀ op : ℚ → ℚ → ℚ,
      ∃ s' r, binH op s a (.marr b) = .ok (s', r) ∧ FreshResult s a b s' r := by
    intro op
    exact ⟨_, _, by simp [binH, hsp],
      fresh_alloc s a b (bufZip op (s.read a.buf) (s.read b.buf)) ha hb⟩
  have hgen2 : ∀ op : ℚ → ℚ → ℚ,
      ∃ s' r, binH op s a (.other f) = .ok (s', r) ∧ FreshResult s a a s' r := by
    intro op
    exact ⟨_, _, by simp [binH],
      fresh_alloc s a a (bufZip op (s.read a.buf) f) ha ha⟩
  exact ⟨hgen _, hgen _, hgen _, hgen _, hgen2 _, hgen2 _, hgen2 _, hgen2 _,
    fresh_alloc s a b _ ha hb, fresh_alloc s a a _ ha ha⟩

/-- C9: when an in-place operator (`+= -= *= /=` or `@=`) between two
instances fails the space assertion, the store — in particular the left
operand's buffer — is completely untouched: the assertion is evaluated
before any mutation. -/
theorem inplace_error_atomic (s : Store) (a b : MARef) (h : a.space ≠ b.space) :
    iaddH s a (.marr b) = (.error MatrixArray.SpaceError, s) ∧
    isubH s a (.marr b) = (.error MatrixArray.SpaceError, s) ∧
    imulH s a (.marr b) = (.error MatrixArray.SpaceError, s) ∧
    idivH s a (.marr b) = (.error MatrixArray.SpaceError, s) ∧
    imatmulH s a b = (.error MatrixArray.SpaceError, s) ∧
    ((iaddH s a (.marr b)).2).read a.buf = s.read a.buf := by
  refine ⟨?_, ?_, ?_, ?_, ?_, ?_⟩ <;>
    simp [iaddH, isubH, imulH, idivH, imatmulH, ibinH, h]

/-- Witness for C5 at `exA`: the count and the membership of `(0,1)`. -/
theorem itercolumn_upper_triangle_witness :
    exA.itercolumn.length = exA.rank * (exA.rank + 1) / 2 ∧
    ((0 : Nat) ≤ 1 ∧ (1 : Nat) < exA.rank) ∧
    ((0, 1), fun m => exA.data m 0 1) ∈ exA.itercolumn :=
  ⟨(itercolumn_upper_triangle exA).1, ⟨by decide, by decide⟩,
    (itercolumn_upper_triangle exA).2.2.1 0 1 (by decide) (by decide)⟩

/-- An example store with two buffers. -/
def exStore : Store := ⟨[fun m i j => (m : ℚ) + i + j, fun m _ _ => (m : ℚ) * 2]⟩

/-- A real-space instance viewing buffer 0 of `exStore`. -/
def exRA : MARef := ⟨3, 2, 0, Space.Real⟩

/-- A real-space instance viewing buffer 1 of `exStore`. -/
def exRB : MARef := ⟨3, 2, 1, Space.Real⟩

/-- A Fourier-space instance viewing buffer 1 of `exStore`. -/
def exRF : MARef := ⟨3, 2, 1, Space.Fourier⟩

/-- Witness for C3 at `exStore`, `exRA`, `exRB`. -/
theorem inplace_equals_outofplace_witness :
    (exRA.buf < exStore.bufs.length ∧ validOpH exRA (.marr exRB)) ∧
    (((iaddH exStore exRA (.marr exRB)).1 = .ok exRA ∧
      ∃ s' r, addH exStore exRA (.marr exRB) = .ok (s', r) ∧
        ((iaddH exStore exRA (.marr exRB)).2).read exRA.buf = s'.read r.buf) ∧
     ((isubH exStore exRA (.marr exRB)).1 = .ok exRA ∧
      ∃ s' r, subH exStore exRA (.marr exRB) = .ok (s', r) ∧
        ((isubH exStore exRA (.marr exRB)).2).read exRA.buf = s'.read r.buf) ∧
     ((imulH exStore exRA (.marr exRB)).1 = .ok exRA ∧
      ∃ s' r, mulH exStore exRA (.marr exRB) = .ok (s', r) ∧
        ((imulH exStore exRA (.marr exRB)).2).read exRA.buf = s'.read r.buf) ∧
     ((idivH exStore exRA (.marr exRB)).1 = .ok exRA ∧
      ∃ s' r, divH exStore exRA (.marr exRB) = .ok (s', r) ∧
        ((idivH exStore exRA (.marr exRB)).2).read exRA.buf = s'.read r.buf)) :=
  ⟨⟨by decide, ⟨rfl, rfl, rfl⟩⟩,
    inplace_equals_outofplace exStore exRA (.marr exRB) (by decide) ⟨rfl, rfl, rfl⟩⟩

/-- Witness for C4 at `exStore`, `exRA`, `exRB`. -/
theorem nonmutating_fresh_buffer_witness :
    (exRA.buf < exStore.bufs.length ∧ exRB.buf < exStore.bufs.length ∧
      exRA.space = exRB.space) ∧
    ((∃ s' r, addH exStore exRA (.marr exRB) = .ok (s', r) ∧
        FreshResult exStore exRA exRB s' r) ∧
     (∃ s' r, subH exStore exRA (.marr exRB) = .ok (s', r) ∧
        FreshResult exStore exRA exRB s' r) ∧
     (∃ s' r, mulH exStore exRA (.marr exRB) = .ok (s', r) ∧
        FreshResult exStore exRA exRB s' r) ∧
     (∃ s' r, divH exStore exRA (.marr exRB) = .ok (s', r) ∧
        FreshResult exStore exRA exRB s' r) ∧
     (∃ s' r, addH exStore exRA (.other fun _ _ _ => 5) = .ok (s', r) ∧
        FreshResult exStore exRA exRA s' r) ∧
     (∃ s' r, subH exStore exRA (.other fun _ _ _ => 5) = .ok (s', r) ∧
        FreshResult exStore exRA exRA s' r) ∧
     (∃ s' r, mulH exStore exRA (.other fun _ _ _ => 5) = .ok (s', r) ∧
        FreshResult exStore exRA exRA s' r) ∧
     (∃ s' r, divH exStore exRA (.other fun _ _ _ => 5) = .ok (s', r) ∧
        FreshResult exStore exRA exRA s' r) ∧
     FreshResult exStore exRA exRB (dotH exStore exRA exRB).1 (dotH exStore exRA exRB).2 ∧
     FreshResult exStore exRA exRA (invertH exStore exRA).1 (invertH exStore exRA).2) :=
  ⟨⟨by decide, by decide, rfl⟩,
    nonmutating_fresh_buffer exStore exRA exRB (fun _ _ _ => 5)
      (by decide) (by decide) rfl⟩

/-- Witness for C9 at `exStore`, `exRA`, `exRF`. -/
theorem inplace_error_atomic_witness :
    exRA.space ≠ exRF.space ∧
    (iaddH exStore exRA (.marr exRF) = (.error MatrixArray.SpaceError, exStore) ∧
     isubH exStore exRA (.marr exRF) = (.error MatrixArray.SpaceError, exStore) ∧
     imulH exStore exRA (.marr exRF) = (.error MatrixArray.SpaceError, exStore) ∧
     idivH exStore exRA (.marr exRF) = (.error MatrixArray.SpaceError, exStore) ∧
     imatmulH exStore exRA exRF = (.error MatrixArray.SpaceError, exStore) ∧
     ((iaddH exStore exRA (.marr exRF)).2).read exRA.buf = exStore.read exRA.buf) :=
  ⟨by decide, inplace_error_atomic exStore exRA exRF (by decide)⟩
